import Mathlib

set_option maxHeartbeats 1000000

namespace PJ

/- Shallow embedding of PJ.py: a Lua "compiler" built on ast.NodeTransformer.
   Python ast nodes become the tagged `Node` variant below; exceptions raised
   by attribute or index access become `PyExc` values in `Except`. -/

/-- expression contexts ast.Load / ast.Store -/
inductive Ctx where
  | Load
  | Store
deriving DecidableEq

/-- The ast node kinds this program constructs or inspects.  Raw Python
    scalars stored in a Constant's value slot are modelled as leaf nodes
    (IntLit); `ast.Constant(value=<node>)`, which visit_For builds, stores the
    node itself in the value slot.  `NodeList` models a Python list shoved into
    a single-node slot by NodeTransformer.generic_visit when a visitor returns
    a list for a non-sequence field. -/
inductive Node where
  | Module (body : List Node)
  | FunctionDef (name : String) (body : List Node)
  | If (test : Node) (body : List Node) (orelse : List Node)
  | For (target : Node) (iter : Node) (body : List Node) (orelse : List Node)
  | While (test : Node) (body : List Node) (orelse : List Node)
  | Assign (targets : List Node) (value : Node)
  | AugAssign (target : Node) (op : Node) (value : Node)
  | Return (value : Node)
  | ExprStmt (value : Node)
  | BinOp (left : Node) (op : Node) (right : Node)
  | UnaryOp (op : Node) (operand : Node)
  | Compare (left : Node) (ops : List Node) (comparators : List Node)
  | Call (func : Node) (args : List Node)
  | Name (id : String) (ctx : Ctx)
  | Constant (value : Node) (kind : Option String)
  | Str (s : String)
  | IntLit (n : Int)
  | Pass
  | Add
  | Lt
  | FloorDiv
  | Div
  | Not
  | In
  | Eq
  | NodeList (elts : List Node)

/-- Python exceptions the transformer can raise (SyntaxError only from the
    external parser). -/
inductive PyExc where
  | SyntaxError
  | AttributeError (attr : String)
  | IndexError
deriving DecidableEq

/-- Outcome of NodeTransformer.visit: a single replacement node, or a list of
    statements to splice into the enclosing sequence. -/
inductive VisitRes where
  | single (n : Node)
  | seq (ns : List Node)

@[simp] theorem pure_eq_ok {α : Type} (x : α) : (pure x : Except PyExc α) = Except.ok x := rfl

@[simp] theorem bind_ok {α β : Type} (x : α) (f : α → Except PyExc β) :
    (Except.ok x >>= f : Except PyExc β) = f x := rfl

@[simp] theorem bind_err {α β : Type} (e : PyExc) (f : α → Except PyExc β) :
    (Except.error e >>= f : Except PyExc β) = Except.error e := rfl

/-- Attribute access `.orelse` (present on If / For / While among our kinds). -/
def orelseOf : Node → Except PyExc (List Node)
  | .If _ _ o => .ok o
  | .For _ _ _ o => .ok o
  | .While _ _ o => .ok o
  | _ => .error (.AttributeError "orelse")

/-- Rebind the `.orelse` attribute (mutation of the node's orelse list). -/
def setOrelse : Node → List Node → Node
  | .If t b _, o => .If t b o
  | .For t i b _, o => .For t i b o
  | .While t b _, o => .While t b o
  | n, _ => n

/-- Attribute access `.test` (present on If / While among our kinds). -/
def testOf : Node → Except PyExc Node
  | .If t _ _ => .ok t
  | .While t _ _ => .ok t
  | _ => .error (.AttributeError "test")

/-- Attribute access `.body`. -/
def bodyOf : Node → Except PyExc (List Node)
  | .Module b => .ok b
  | .FunctionDef _ b => .ok b
  | .If _ b _ => .ok b
  | .For _ _ b _ => .ok b
  | .While _ b _ => .ok b
  | _ => .error (.AttributeError "body")

/-- Attribute access `.id` (only ast.Name has it). -/
def idOf : Node → Except PyExc String
  | .Name id _ => .ok id
  | _ => .error (.AttributeError "id")

/-- Attribute access `.args` (only ast.Call has it among our kinds). -/
def argsOf : Node → Except PyExc (List Node)
  | .Call _ args => .ok args
  | _ => .error (.AttributeError "args")

/-- List indexing `xs[i]`; raises IndexError past the end. -/
def getArg (xs : List Node) (i : Nat) : Except PyExc Node :=
  match xs.get? i with
  | some x => .ok x
  | none => .error .IndexError

/-- The statement visit_FunctionDef prepends to every function body. -/
def extra_stmt : Node :=
  .ExprStmt (.Call (.Name "print" .Load) [.Str "This is an additional statement."])

/-- The chain-building loop of visit_If.  `cur` is the node `current_if`
    points at; the recursion returns the rebuilt subtree rooted at `cur`
    after all remaining orelse entries are processed (all later mutations in
    the Python loop happen inside the subtree `current_if` moves into). -/
def ifLoop (cur : Node) (entries : List Node) : Except PyExc Node :=
  match entries with
  | [] => .ok cur
  | e :: rest => do
    let orl ← orelseOf cur
    match e with
    | .If t2 b2 o2 => do
        -- current_if.orelse.append(orelse); current_if = orelse
        let e2 ← ifLoop (.If t2 b2 o2) rest
        pure (setOrelse cur (orl ++ [e2]))
    | _ => do
        -- current_if.orelse.append(ast.If(test=orelse.test, body=orelse.body,
        -- orelse=[])); current_if = current_if.orelse[0]
        let t ← testOf e
        let b ← bodyOf e
        match orl with
        | [] => do
            let z2 ← ifLoop (.If t b []) rest
            pure (setOrelse cur [z2])
        | z :: zs => do
            let z2 ← ifLoop z rest
            pure (setOrelse cur (z2 :: zs ++ [.If t b []]))
termination_by entries.length

/-- LuaCompiler.visit_If. -/
def visit_If (test : Node) (body orelse : List Node) : Except PyExc VisitRes :=
  match orelse with
  | [] => .ok (.single (.If test body []))
  | _ :: _ => do
    let r ← ifLoop (.If test body []) orelse
    pure (.single r)

/-- LuaCompiler.visit_For. -/
def visit_For (target iter : Node) (body _orelse : List Node) :
    Except PyExc VisitRes := do
  let tid ← idOf target                -- node.target.id
  let args ← argsOf iter               -- node.iter.args
  let a0 ← getArg args 0
  let start := Node.Constant a0 none   -- ast.Constant(value=node.iter.args[0], kind=None)
  let a1 ← getArg args 1
  let stop := Node.Constant a1 none    -- ast.Constant(value=node.iter.args[1], kind=None)
  -- ast.Constant(value=node.iter.args[2], kind=None) if len(node.iter.args) > 2 else None
  let step : Option Node := (args.get? 2).map fun a2 => Node.Constant a2 none
  let init_assign := Node.Assign [.Name tid .Store] start
  let loop_condition := Node.Compare (.Name tid .Load) [.Lt] [stop]
  let loop_body := body
  let loop_body2 := match step with
    | some s =>
        loop_body ++ [Node.Assign [.Name tid .Store]
          (.BinOp (.Name tid .Load) .Add s)]
    | none =>
        loop_body ++ [Node.AugAssign (.Name tid .Store) .Add
          (.Constant (.IntLit 1) none)]
  let while_loop := Node.While loop_condition loop_body2 []
  pure (.seq [init_assign, while_loop])

/-- LuaCompiler.visit_Return; `st` is self.scope_stack (top = last element). -/
def visit_Return (st : List String) (value : Node) : Except PyExc VisitRes :=
  match st.getLast? with
  | none => .ok (.single (.Return value))       -- if not self.scope_stack
  | some scope =>
    if scope = "function" then
      .ok (.seq [.Assign [.Name "_retval" .Store] value,
                 .Return (.Name "_retval" .Load)])
    else .ok (.single (.Return value))

mutual

/-- Termination measure for the visitor: like sizeOf, but a FunctionDef is
    heavy enough to absorb the statement visit_FunctionDef inserts. -/
def w : Node → Nat
  | .Module body => 2 + wList body
  | .FunctionDef _ body => 2000 + wList body
  | .If t b o => 2 + w t + wList b + wList o
  | .For t i b o => 2 + w t + w i + wList b + wList o
  | .While t b o => 2 + w t + wList b + wList o
  | .Assign ts v => 2 + wList ts + w v
  | .AugAssign t o v => 2 + w t + w o + w v
  | .Return v => 2 + w v
  | .ExprStmt v => 2 + w v
  | .BinOp l o r => 2 + w l + w o + w r
  | .UnaryOp o x => 2 + w o + w x
  | .Compare l os cs => 2 + w l + wList os + wList cs
  | .Call f a => 2 + w f + wList a
  | .Constant v _ => 2 + w v
  | .NodeList xs => 2 + wList xs
  | _ => 2

/-- Sum of `w` over a list of nodes. -/
def wList : List Node → Nat
  | [] => 0
  | n :: ns => w n + wList ns

end

theorem w_pos (n : Node) : 0 < w n := by
  cases n <;> (simp [w]; try omega)

mutual

/-- NodeTransformer.visit: dispatch to the visit_<Kind> method when
    LuaCompiler defines one, else generic_visit (rebuild the node, visiting
    every child field; list fields splice list results, single-node fields
    receive a NodeList when a visitor returns a list). -/
def visit (st : List String) (n : Node) : Except PyExc VisitRes :=
  match n with
  | .Module body => do pure (.single (.Module (← visitList st body)))
  | .FunctionDef name body => do
      -- visit_FunctionDef: node.body.insert(0, extra_stmt); generic_visit
      pure (.single (.FunctionDef name (← visitList st (extra_stmt :: body))))
  | .If t body orelse => visit_If t body orelse
  | .For target iter body orelse => visit_For target iter body orelse
  | .While t body orelse => do
      pure (.single (.While (← visitField st t) (← visitList st body)
        (← visitList st orelse)))
  | .Assign (t1 :: t2 :: ts) value =>
      -- visit_Assign: len(node.targets) > 1 splits the statement
      .ok (.seq ((t1 :: t2 :: ts).map fun t => .Assign [t] value))
  | .Assign targets value => do
      -- visit_Assign single-target falls through to generic_visit
      pure (.single (.Assign (← visitList st targets)
        (← visitField st value)))
  | .AugAssign target op value => do
      pure (.single (.AugAssign (← visitField st target) (← visitField st op)
        (← visitField st value)))
  | .Return value => visit_Return st value
  | .ExprStmt value => do pure (.single (.ExprStmt (← visitField st value)))
  | .BinOp l .FloorDiv r => do
      -- visit_BinOp: node.op = ast.Div(), then generic_visit
      pure (.single (.BinOp (← visitField st l) (← visitField st Node.Div)
        (← visitField st r)))
  | .BinOp l op r => do
      pure (.single (.BinOp (← visitField st l) (← visitField st op)
        (← visitField st r)))
  | .UnaryOp .Not operand => do
      -- visit_UnaryOp: node.op = ast.Not() (a no-op), then generic_visit
      pure (.single (.UnaryOp (← visitField st Node.Not)
        (← visitField st operand)))
  | .UnaryOp op operand => do
      pure (.single (.UnaryOp (← visitField st op)
        (← visitField st operand)))
  | .Compare _ [] _ =>
      -- visit_Compare reads node.ops[0] unconditionally
      .error .IndexError
  | .Compare l (.In :: os) cs => do
      -- visit_Compare: node.ops[0] = ast.Eq(), then generic_visit
      pure (.single (.Compare (← visitField st l)
        (← visitList st (Node.Eq :: os)) (← visitList st cs)))
  | .Compare l (o :: os) cs => do
      pure (.single (.Compare (← visitField st l)
        (← visitList st (o :: os)) (← visitList st cs)))
  | .Call (.Name "len" _) [] =>
      -- visit_Call on len reads node.args[0] unconditionally
      .error .IndexError
  | .Call (.Name "len" ctx) (.Str s :: rest) => do
      -- visit_Call: node.func.id = 'string.len', then generic_visit
      pure (.single (.Call (← visitField st (.Name "string.len" ctx))
        (← visitList st (.Str s :: rest))))
  | .Call (.Name "len" ctx) (a0 :: rest) => do
      -- visit_Call: node.func.id = 'table.getn', then generic_visit
      pure (.single (.Call (← visitField st (.Name "table.getn" ctx))
        (← visitList st (a0 :: rest))))
  | .Call f args => do
      pure (.single (.Call (← visitField st f) (← visitList st args)))
  | .Constant v kind => do pure (.single (.Constant (← visitField st v) kind))
  | .Name id ctx => .ok (.single (.Name id ctx))
  | .Str s => .ok (.single (.Str s))
  | .IntLit i => .ok (.single (.IntLit i))
  | .Pass => .ok (.single .Pass)
  | .Add => .ok (.single .Add)
  | .Lt => .ok (.single .Lt)
  | .FloorDiv => .ok (.single .FloorDiv)
  | .Div => .ok (.single .Div)
  | .Not => .ok (.single .Not)
  | .In => .ok (.single .In)
  | .Eq => .ok (.single .Eq)
  | .NodeList xs => .ok (.single (.NodeList xs))
termination_by w n
decreasing_by all_goals (simp [w, wList, extra_stmt]; try first
  | omega
  | exact w_pos _)

/-- generic_visit on a sequence-valued field: visit each element, splice list
    results, keep single results. -/
def visitList (st : List String) (ns : List Node) : Except PyExc (List Node) :=
  match ns with
  | [] => .ok []
  | n :: rest => do
    let r ← visit st n
    let tail ← visitList st rest
    match r with
    | .single m => pure (m :: tail)
    | .seq xs => pure (xs ++ tail)
termination_by wList ns + 1
decreasing_by all_goals (simp [w, wList, extra_stmt]; try first
  | omega
  | exact w_pos _)

/-- generic_visit on a single-node field: a list result is stored into the
    slot as-is (NodeList). -/
def visitField (st : List String) (n : Node) : Except PyExc Node := do
  match ← visit st n with
  | .single m => pure m
  | .seq xs => pure (.NodeList xs)
termination_by w n + 1
decreasing_by all_goals (simp [w, wList, extra_stmt]; try first
  | omega
  | exact w_pos _)

end

/-- What self.visit returns to the driver (a Module always yields single). -/
def resultNode : VisitRes → Node
  | .single n => n
  | .seq xs => .NodeList xs

/-- compile_lua: parse (external collaborator, given as an Except), run the
    transformer over the tree, serialize (external).  The try/except catches
    only SyntaxError, printing a message and returning None (`Except.ok none`);
    every other exception propagates out (`Except.error`). -/
def compile_lua (parsed : Except PyExc Node) : Except PyExc (Option Node) :=
  match parsed with
  | .error .SyntaxError => .ok none
  | .error e => .error e
  | .ok tree =>
    match visit [] tree with
    | .ok r => .ok (some (resultNode r))
    | .error .SyntaxError => .ok none
    | .error e => .error e

end PJ

namespace PJ

/- Analysis helpers used to state the claims. -/

/-- Does every `If` link along an orelse chain carry at most one entry?  The
    shape the If rule is claimed to produce. -/
def allLinksSingle : Node → Bool
  | .If _ _ [] => true
  | .If _ _ [o] => allLinksSingle o
  | .If _ _ (_ :: _ :: _) => false
  | _ => true

/-- The linear elseif chain with head branch (t, b) and the given
    (test, body) pairs as successive links. -/
def chainOf (t : Node) (b : List Node) : List (Node × List Node) → Node
  | [] => .If t b []
  | (t2, b2) :: rest => .If t b [chainOf t2 b2 rest]

/-- Read back the (test, body) pairs of a single-entry orelse chain. -/
def chainParts : Node → List (Node × List Node)
  | .If t b [] => [(t, b)]
  | .If t b [o] => (t, b) :: chainParts o
  | _ => []

/-- Is a node syntactically a string literal (ast.Str)? -/
def isStr : Node → Bool
  | .Str _ => true
  | _ => false

/-- A module whose For body contains a floor division. -/
def forFloorDiv_input : Node := .Module [.For (.Name "i" .Store)
  (.Call (.Name "range" .Load)
    [.Constant (.IntLit 1) none, .Constant (.IntLit 5) none])
  [.ExprStmt (.BinOp (.Name "x" .Load) .FloorDiv (.Name "y" .Load))] []]

/-- One pass over forFloorDiv_input: the For expands to Assign + While and
    its body is spliced in unvisited, floor division intact. -/
def forFloorDiv_once : Node := .Module [
  .Assign [.Name "i" .Store] (.Constant (.Constant (.IntLit 1) none) none),
  .While (.Compare (.Name "i" .Load) [.Lt]
      [.Constant (.Constant (.IntLit 5) none) none])
    [.ExprStmt (.BinOp (.Name "x" .Load) .FloorDiv (.Name "y" .Load)),
     .AugAssign (.Name "i" .Store) .Add (.Constant (.IntLit 1) none)] []]

/-- A second pass over forFloorDiv_once: the floor division inside the While
    body is only now rewritten to Div. -/
def forFloorDiv_twice : Node := .Module [
  .Assign [.Name "i" .Store] (.Constant (.Constant (.IntLit 1) none) none),
  .While (.Compare (.Name "i" .Load) [.Lt]
      [.Constant (.Constant (.IntLit 5) none) none])
    [.ExprStmt (.BinOp (.Name "x" .Load) .Div (.Name "y" .Load)),
     .AugAssign (.Name "i" .Store) .Add (.Constant (.IntLit 1) none)] []]

/-- An already-split pair of single-target assigns whose shared value holds a
    floor division. -/
def splitAssigns : Node := .Module [
  .Assign [.Name "x" .Store]
    (.BinOp (.Name "a" .Load) .FloorDiv (.Name "b" .Load)),
  .Assign [.Name "y" .Store]
    (.BinOp (.Name "a" .Load) .FloorDiv (.Name "b" .Load))]

/-- Re-running the engine on splitAssigns rewrites the floor divisions. -/
def splitAssigns_twice : Node := .Module [
  .Assign [.Name "x" .Store]
    (.BinOp (.Name "a" .Load) .Div (.Name "b" .Load)),
  .Assign [.Name "y" .Store]
    (.BinOp (.Name "a" .Load) .Div (.Name "b" .Load))]

theorem ifLoop_chain (ps : List (Node × List Node)) : ∀ (t : Node) (b : List Node),
    ifLoop (.If t b []) (ps.map fun q => Node.If q.1 q.2 []) = .ok (chainOf t b ps) := by
  induction ps with
  | nil => intro t b; simp [ifLoop, chainOf]
  | cons p rest ih =>
    intro t b
    obtain ⟨t2, b2⟩ := p
    simp [ifLoop, orelseOf, setOrelse, chainOf, ih t2 b2]

theorem chainParts_chainOf (ps : List (Node × List Node)) : ∀ (t : Node) (b : List Node),
    chainParts (chainOf t b ps) = (t, b) :: ps := by
  induction ps with
  | nil => intro t b; simp [chainOf, chainParts]
  | cons p rest ih =>
    intro t b
    obtain ⟨t2, b2⟩ := p
    simp [chainOf, chainParts, ih t2 b2]

theorem allLinksSingle_chainOf (ps : List (Node × List Node)) : ∀ (t : Node) (b : List Node),
    allLinksSingle (chainOf t b ps) = true := by
  induction ps with
  | nil => intro t b; simp [chainOf, allLinksSingle]
  | cons p rest ih =>
    intro t b
    obtain ⟨t2, b2⟩ := p
    simp [chainOf, allLinksSingle, ih t2 b2]

end PJ

namespace PJ

/-- C1 (counterexample): for the range-For `for i in range(1, 5): pass` the
    rewrite does NOT produce an Assign whose value and a While whose
    condition right-hand side are the original start/stop argument
    expressions themselves: visit_For wraps each argument inside a fresh
    ast.Constant node. -/
theorem C1_counterexample :
    visit [] (.For (.Name "i" .Store)
      (.Call (.Name "range" .Load)
        [.Constant (.IntLit 1) none, .Constant (.IntLit 5) none])
      [.Pass] []) ≠
    .ok (.seq [.Assign [.Name "i" .Store] (.Constant (.IntLit 1) none),
      .While (.Compare (.Name "i" .Load) [.Lt] [.Constant (.IntLit 5) none])
        [.Pass, .AugAssign (.Name "i" .Store) .Add (.Constant (.IntLit 1) none)]
        []]) := by
  intro h
  simp [visit, visit_For, idOf, argsOf, getArg] at h

/-- C1 (amended): for a For over a two-argument range call the rewrite yields
    [Assign(var, Constant(start)), While(var < Constant(stop),
    body + [AugAssign(var, +=, 1)])], and with a third argument s the appended
    statement is Assign(var, BinOp(var, +, Constant(s))): the start/stop/step
    positions hold fresh Constant nodes wrapping the original argument
    expressions, not those expressions themselves. -/
theorem C1_amended (st : List String) (v : String) (a b c : Node)
    (body orelse : List Node) :
    visit st (.For (.Name v .Store) (.Call (.Name "range" .Load) [a, b])
        body orelse) =
      .ok (.seq [.Assign [.Name v .Store] (.Constant a none),
        .While (.Compare (.Name v .Load) [.Lt] [.Constant b none])
          (body ++ [.AugAssign (.Name v .Store) .Add (.Constant (.IntLit 1) none)])
          []])
    ∧ visit st (.For (.Name v .Store) (.Call (.Name "range" .Load) [a, b, c])
        body orelse) =
      .ok (.seq [.Assign [.Name v .Store] (.Constant a none),
        .While (.Compare (.Name v .Load) [.Lt] [.Constant b none])
          (body ++ [.Assign [.Name v .Store]
            (.BinOp (.Name v .Load) .Add (.Constant c none))])
          []]) := by
  constructor <;> simp [visit, visit_For, idOf, argsOf, getArg]

/-- C2 (counterexample): an If whose orelse holds an If with non-empty orelse
    followed by a second If is not rewritten into a chain of single-entry
    orelse links; the second link keeps its pre-existing orelse entry and the
    new link is appended beside it, giving a two-entry orelse slot. -/
theorem C2_counterexample :
    visit [] (.If (.Name "a" .Load) [.Pass]
      [.If (.Name "b" .Load) [.Pass] [.ExprStmt (.Name "w" .Load)],
       .If (.Name "c" .Load) [.Pass] []]) =
      .ok (.single (.If (.Name "a" .Load) [.Pass]
        [.If (.Name "b" .Load) [.Pass]
          [.ExprStmt (.Name "w" .Load), .If (.Name "c" .Load) [.Pass] []]]))
    ∧ allLinksSingle (.If (.Name "a" .Load) [.Pass]
        [.If (.Name "b" .Load) [.Pass]
          [.ExprStmt (.Name "w" .Load), .If (.Name "c" .Load) [.Pass] []]]) =
        false := by
  constructor
  · simp [visit, visit_If, ifLoop, orelseOf, setOrelse]
  · simp [allLinksSingle]

/-- C2 (amended): for an If whose non-empty orelse consists of If nodes each
    with empty orelse, the rewrite returns a single linear chain, one If per
    branch, linked through single-entry orelse slots, with every branch's test
    and body preserved verbatim and in order; an If with empty orelse is left
    unchanged.  (An orelse entry that is an If with a non-empty orelse keeps
    its old entries and later links are appended beside them, so the chain
    property can fail there.) -/
theorem C2_amended (st : List String) (t : Node) (b : List Node)
    (p : Node × List Node) (ps : List (Node × List Node)) :
    visit st (.If t b ((p :: ps).map fun q => Node.If q.1 q.2 [])) =
      .ok (.single (chainOf t b (p :: ps)))
    ∧ chainParts (chainOf t b (p :: ps)) = (t, b) :: p :: ps
    ∧ allLinksSingle (chainOf t b (p :: ps)) = true
    ∧ visit st (.If t b []) = .ok (.single (.If t b [])) := by
  refine ⟨?_, chainParts_chainOf _ _ _, allLinksSingle_chainOf _ _ _,
    by simp [visit, visit_If]⟩
  obtain ⟨t2, b2⟩ := p
  simp [visit, visit_If, ifLoop, orelseOf, setOrelse, chainOf,
    ifLoop_chain ps t2 b2]

/-- C3: a Return visited while the innermost scope frame is 'function'
    expands to exactly the two statements Assign(_retval, value) and
    Return(Name("_retval")); a Return visited with an empty scope stack is
    returned unchanged. -/
theorem C3_return_scope (st : List String) (v : Node) :
    (st.getLast? = some "function" →
      visit st (.Return v) =
        .ok (.seq [.Assign [.Name "_retval" .Store] v,
          .Return (.Name "_retval" .Load)]))
    ∧ visit [] (.Return v) = .ok (.single (.Return v)) := by
  constructor
  · intro h; simp [visit, visit_Return, h]
  · simp [visit, visit_Return]

/-- Witness for C3 at a concrete scope stack and return expression. -/
theorem C3_return_scope_witness :
    visit ["function"] (.Return (.Name "x" .Load)) =
      .ok (.seq [.Assign [.Name "_retval" .Store] (.Name "x" .Load),
        .Return (.Name "_retval" .Load)]) :=
  (C3_return_scope ["function"] (.Name "x" .Load)).1 (by simp)

/-- C4 (code-bug evidence): nothing in the transformer ever pushes a scope
    frame: walking a Module whose FunctionDef body holds a Return leaves the
    scope stack empty throughout, so the Return is NOT rewritten (it would be,
    were a 'function' frame on top, as the second conjunct shows). -/
theorem C4_scope_never_pushed :
    visit [] (.Module [.FunctionDef "f" [.Return (.Constant (.IntLit 1) none)]]) =
      .ok (.single (.Module [.FunctionDef "f"
        [extra_stmt, .Return (.Constant (.IntLit 1) none)]]))
    ∧ visit ["function"] (.Return (.Constant (.IntLit 1) none)) =
      .ok (.seq [.Assign [.Name "_retval" .Store] (.Constant (.IntLit 1) none),
        .Return (.Name "_retval" .Load)]) := by
  constructor
  · simp [visit, visitList, visitField, visit_Return, extra_stmt]
  · simp [visit, visit_Return]

/-- C5: an Assign with k targets (k > 1) and value v rewrites to exactly k
    single-target Assigns, in the original target order, each carrying the
    very same value subtree v (object identity is rendered as syntactic
    equality in this pure embedding); a single-target Assign is not split:
    the rule falls through to generic_visit, keeping the node and recursing
    into its children. -/
theorem C5_assign_split (st : List String) (t1 t2 : Node) (ts : List Node)
    (v : Node) :
    visit st (.Assign (t1 :: t2 :: ts) v) =
      .ok (.seq ((t1 :: t2 :: ts).map fun t => .Assign [t] v))
    ∧ ∀ t : Node, visit st (.Assign [t] v) =
        (visitList st [t] >>= fun ts2 =>
          visitField st v >>= fun v2 =>
            Except.ok (.single (.Assign ts2 v2))) := by
  constructor
  · simp [visit]
  · intro t; simp [visit]

end PJ

namespace PJ

/-- C6 (counterexample): a For whose iterable is not a call (violating the
    range-shape precondition) does not make compile_lua return a typed,
    recoverable error: the AttributeError raised when reading node.iter.args
    propagates uncaught out of the entry point. -/
theorem C6_counterexample :
    compile_lua (.ok (.Module [.For (.Name "x" .Store) (.Name "lst" .Load)
      [.Pass] []])) = .error (.AttributeError "args") := by
  simp [compile_lua, visit, visitList, visit_For, idOf, argsOf]

/-- C6 (amended): shape-precondition violations are not converted into a
    typed recoverable result: a non-call For iterable raises an uncaught
    AttributeError and a one-argument range call an uncaught IndexError, both
    propagating out of compile_lua; only SyntaxError (from the external
    parser) is caught and turned into the reported-failure result None. -/
theorem C6_amended (v idn : String) (body orelse : List Node) (a : Node) :
    compile_lua (.ok (.Module [.For (.Name v .Store) (.Name idn .Load)
        body orelse])) = .error (.AttributeError "args")
    ∧ compile_lua (.ok (.Module [.For (.Name v .Store)
        (.Call (.Name "range" .Load) [a]) body orelse])) = .error .IndexError
    ∧ compile_lua (.error .SyntaxError) = .ok none := by
  refine ⟨?_, ?_, by simp [compile_lua]⟩ <;>
    simp [compile_lua, visit, visitList, visit_For, idOf, argsOf, getArg]

/-- C7 (counterexample): the statements a For body carries are NOT rewritten
    before the increment is appended: the floor division in the body survives
    the walk verbatim, whereas the claimed behaviour would have produced the
    Div version. -/
theorem C7_counterexample :
    visit [] forFloorDiv_input = .ok (.single forFloorDiv_once)
    ∧ visit [] forFloorDiv_input ≠ .ok (.single forFloorDiv_twice) := by
  constructor
  · simp [visit, visitList, visitField, visit_For, idOf, argsOf, getArg,
      forFloorDiv_input, forFloorDiv_once]
  · intro h
    simp [visit, visitList, visitField, visit_For, idOf, argsOf, getArg,
      forFloorDiv_input, forFloorDiv_twice] at h

/-- C7 (amended): elements produced by a list-returning rule are spliced into
    the parent's sequence without being walked again: the For body appears
    verbatim (arbitrary, unvisited) inside the produced While, followed by the
    appended increment, which is likewise not re-rewritten. -/
theorem C7_amended (st : List String) (v : String) (a b : Node)
    (body orelse : List Node) :
    visit st (.Module [.For (.Name v .Store)
        (.Call (.Name "range" .Load) [a, b]) body orelse]) =
      .ok (.single (.Module [
        .Assign [.Name v .Store] (.Constant a none),
        .While (.Compare (.Name v .Load) [.Lt] [.Constant b none])
          (body ++ [.AugAssign (.Name v .Store) .Add (.Constant (.IntLit 1) none)])
          []])) := by
  simp [visit, visitList, visit_For, idOf, argsOf, getArg]

/-- C8 (counterexample): re-running the engine on an already-expanded For is
    not a no-op: the first pass leaves the spliced body unvisited, so the
    second pass rewrites the floor division it contains. -/
theorem C8_counterexample :
    visit [] forFloorDiv_input = .ok (.single forFloorDiv_once)
    ∧ visit [] forFloorDiv_once = .ok (.single forFloorDiv_twice)
    ∧ forFloorDiv_once ≠ forFloorDiv_twice := by
  refine ⟨?_, ?_, ?_⟩
  · simp [visit, visitList, visitField, visit_For, idOf, argsOf, getArg,
      forFloorDiv_input, forFloorDiv_once]
  · simp [visit, visitList, visitField, forFloorDiv_once, forFloorDiv_twice]
  · simp [forFloorDiv_once, forFloorDiv_twice]

/-- C8 (amended): re-running the engine on an already-rewritten If chain is a
    no-op (the If rule rebuilds the identical chain without recursing into
    it), but re-running on an already-expanded For or an already-split Assign
    is not a no-op in general: their spliced statements were never visited by
    the first pass, so a second pass rewrites rewritable constructs inside
    them. -/
theorem C8_amended (st : List String) (t : Node) (b : List Node) (t2 : Node)
    (b2 o2 : List Node) :
    visit st (.If t b [.If t2 b2 o2]) = .ok (.single (.If t b [.If t2 b2 o2]))
    ∧ visit [] splitAssigns = .ok (.single splitAssigns_twice)
    ∧ splitAssigns ≠ splitAssigns_twice := by
  refine ⟨?_, ?_, ?_⟩
  · simp [visit, visit_If, ifLoop, orelseOf, setOrelse]
  · simp [visit, visitList, visitField, splitAssigns, splitAssigns_twice]
  · simp [splitAssigns, splitAssigns_twice]

/-- C10: visit_Call is not total on zero-argument len() calls: it reads
    node.args[0] unconditionally, so `len()` raises an IndexError instead of
    being left unchanged or reported as a typed error. -/
theorem C10_len_no_args :
    visit [] (.Call (.Name "len" .Load) []) = .error .IndexError := by
  simp [visit]

end PJ

namespace PJ

/-- C9: a Call to the name 'len' has its callee rewritten in place to
    'string.len' when the first argument is syntactically a string literal
    and to 'table.getn' for a first argument of any other node kind; a Call
    to any other function name keeps its callee (only its arguments are
    walked by generic_visit). -/
theorem C9_len_call (st : List String) (ctx : Ctx) :
    (∀ (s : String) (rest : List Node),
      visit st (.Call (.Name "len" ctx) (.Str s :: rest)) =
        (visitList st (.Str s :: rest) >>= fun args2 =>
          Except.ok (.single (.Call (.Name "string.len" ctx) args2))))
    ∧ (∀ (a : Node) (rest : List Node), isStr a = false →
        visit st (.Call (.Name "len" ctx) (a :: rest)) =
          (visitList st (a :: rest) >>= fun args2 =>
            Except.ok (.single (.Call (.Name "table.getn" ctx) args2))))
    ∧ (∀ (f : String) (args : List Node), f ≠ "len" →
        visit st (.Call (.Name f ctx) args) =
          (visitList st args >>= fun args2 =>
            Except.ok (.single (.Call (.Name f ctx) args2)))) := by
  refine ⟨?_, ?_, ?_⟩
  · intro s rest
    simp [visit, visitField]
  · intro a rest h
    cases a <;> simp_all [visit, visitField, isStr]
  · intro f args h
    simp [visit, visitField, h]

end PJ

namespace PJ

/-- Witness for C9 at concrete calls: len of a string literal, len of a name,
    and a call to print. -/
theorem C9_len_call_witness :
    visit [] (.Call (.Name "len" .Load) [.Str "s"]) =
      (visitList [] [.Str "s"] >>= fun args2 =>
        Except.ok (.single (.Call (.Name "string.len" .Load) args2)))
    ∧ visit [] (.Call (.Name "len" .Load) [.Name "arr" .Load]) =
      (visitList [] [.Name "arr" .Load] >>= fun args2 =>
        Except.ok (.single (.Call (.Name "table.getn" .Load) args2)))
    ∧ visit [] (.Call (.Name "print" .Load) [.Str "hi"]) =
      (visitList [] [.Str "hi"] >>= fun args2 =>
        Except.ok (.single (.Call (.Name "print" .Load) args2))) :=
  ⟨(C9_len_call [] .Load).1 "s" [],
   (C9_len_call [] .Load).2.1 (.Name "arr" .Load) [] (by simp [isStr]),
   (C9_len_call [] .Load).2.2 "print" [.Str "hi"] (by simp)⟩

end PJ
